import Mathlib

/-!
Verification development for the reel-quick video pipeline.

The definitions below are a shallow embedding of the Python sources:

* `src/backend/workers/video_maker.py` — the time codec (`_parse_hms`,
  `_format_hms`), filename sanitiser (`_safe_filename`), payload builder
  (`_build_processing_payload`) and the worker entry point (`process_video`);
* `src/backend/objects/video_automation.py` — the rendering pipeline
  (`VideoAutomation.process_and_create_output`).

Python machine-level details are modelled as follows: `float` values carry
exact rational arithmetic (`ℚ`); `int(...)` on a float truncates toward
zero; `//` and `%` on non-negative Python ints with positive literal
divisors coincide with `Int.ediv`/`Int.emod` (written `/`, `%` on `ℤ`);
`ValueError`-raising functions return `Option`; decimal rendering of an
`int` (f-strings, `str`) and `int(...)` parsing of a string are modelled
explicitly below.
-/

/-! ### Decimal rendering and parsing of integers -/

/-- The ASCII digit character for a value below ten. -/
def digitChar (n : ℕ) : Char := Char.ofNat (48 + n)

/-- Fuel-driven decimal rendering; `fuel` strictly exceeding `m` suffices.
Structural recursion keeps the definition kernel-reducible. -/
def natToCharsAux : ℕ → ℕ → List Char
  | 0, _ => []
  | fuel + 1, m =>
    if m < 10 then [digitChar m]
    else natToCharsAux fuel (m / 10) ++ [digitChar (m % 10)]

/-- Decimal rendering of a natural number, as Python renders an `int`. -/
def natToChars (n : ℕ) : List Char := natToCharsAux (n + 1) n

/-- Decimal rendering of an integer, as Python renders an `int`. -/
def intToChars (i : ℤ) : List Char :=
  if i < 0 then '-' :: natToChars i.natAbs else natToChars i.toNat

/-- Accumulating decimal parser over a run of characters; fails on the
first non-digit character. -/
def digitsValAux : List Char → ℕ → Option ℕ
  | [], acc => some acc
  | c :: rest, acc =>
    if c.isDigit then digitsValAux rest (acc * 10 + (c.toNat - 48)) else none

/-- Value of a non-empty all-digit run of characters. -/
def digitsVal : List Char → Option ℕ
  | [] => none
  | c :: rest => digitsValAux (c :: rest) 0

/-- Strip leading and trailing whitespace, as Python `int(str)` does before
reading the optional sign and the digits. -/
def stripChars (cs : List Char) : List Char :=
  ((cs.dropWhile Char.isWhitespace).reverse.dropWhile Char.isWhitespace).reverse

/-- Python `int(str)`: strip whitespace, optional single sign, then a
non-empty run of decimal digits; anything else raises `ValueError`
(modelled as `none`). -/
def pyInt? (cs : List Char) : Option ℤ :=
  match stripChars cs with
  | [] => none
  | c :: rest =>
    if c = '-' then (digitsVal rest).map fun n => -(n : ℤ)
    else if c = '+' then (digitsVal rest).map fun n => (n : ℤ)
    else (digitsVal (c :: rest)).map fun n => (n : ℤ)

/-! ### Time codec (`_parse_hms`, `_format_hms` in video_maker.py) -/

/-- Python `value.split(":")`: split on every colon, keeping empty pieces. -/
def splitOnColon : List Char → List (List Char)
  | [] => [[]]
  | c :: rest =>
    match splitOnColon rest with
    | [] => [[]]
    | f :: t => if c = ':' then [] :: f :: t else (c :: f) :: t

/-- `_parse_hms` from video_maker.py: split on colons into exactly three
fields, parse each with `int`, reject when `h < 0 or m < 0 or s < 0 or
m > 59 or s > 59`, and return `float(h * 3600 + m * 60 + s)`.  Both
`ValueError` exits are modelled as `none`. -/
def parse_hms (s : String) : Option ℚ :=
  match splitOnColon s.data with
  | [a, b, c] =>
    match pyInt? a, pyInt? b, pyInt? c with
    | some h, some m, some sec =>
      if h < 0 ∨ m < 0 ∨ sec < 0 ∨ 59 < m ∨ 59 < sec then none
      else some (((h * 3600 + m * 60 + sec : ℤ) : ℚ))
    | _, _, _ => none
  | _ => none

/-- Python `int(x)` on a float: truncation toward zero (`Rat.floor` is the
computable floor on `ℚ`). -/
def pyTrunc (x : ℚ) : ℤ := if 0 ≤ x then Rat.floor x else -(Rat.floor (-x))

/-- Python `f"{i:02d}"` for the values this program formats: the rendered
integer, zero-padded on the left to at least two characters. -/
def pad2c (cs : List Char) : List Char :=
  if 2 ≤ cs.length then cs else List.replicate (2 - cs.length) '0' ++ cs

/-- A three-field colon-separated string. -/
def fieldsJoin (a b c : List Char) : String := ⟨a ++ ':' :: (b ++ ':' :: c)⟩

/-- `_format_hms` from video_maker.py: truncate the float to whole seconds,
split into hours/minutes/seconds with `//` and `%`, and zero-pad each field
to two digits (hours unbounded). -/
def format_hms (x : ℚ) : String :=
  let total := pyTrunc x
  let hours := total / 3600
  let minutes := (total % 3600) / 60
  let seconds := total % 60
  fieldsJoin (pad2c (intToChars hours)) (pad2c (intToChars minutes))
    (pad2c (intToChars seconds))

/-- The canonical zero-padded `HH:MM:SS` string for the given field values:
each field rendered in decimal and left-padded with zeros to at least two
digits.  This is exactly the image of `format_hms`. -/
def mkHMS (h m s : ℕ) : String :=
  fieldsJoin (pad2c (natToChars h)) (pad2c (natToChars m)) (pad2c (natToChars s))

/-- The non-padded `H:M:S` string for the given field values. -/
def rawHMS (h m s : ℕ) : String :=
  fieldsJoin (natToChars h) (natToChars m) (natToChars s)

/-! ### Lemmas about decimal rendering/parsing -/

theorem digitChar_isDigit {n : ℕ} (h : n < 10) : (digitChar n).isDigit = true := by
  interval_cases n <;> decide

theorem digitChar_toNat {n : ℕ} (h : n < 10) : (digitChar n).toNat - 48 = n := by
  interval_cases n <;> decide

theorem isDigit_ne_colon {c : Char} (h : c.isDigit = true) : c ≠ ':' := by
  intro e; subst e; exact absurd h (by decide)

theorem isDigit_ne_minus {c : Char} (h : c.isDigit = true) : c ≠ '-' := by
  intro e; subst e; exact absurd h (by decide)

theorem isDigit_ne_plus {c : Char} (h : c.isDigit = true) : c ≠ '+' := by
  intro e; subst e; exact absurd h (by decide)

theorem isDigit_not_ws {c : Char} (h : c.isDigit = true) : c.isWhitespace = false := by
  cases hw : c.isWhitespace
  · rfl
  · simp only [Char.isWhitespace] at hw
    simp only [Bool.or_eq_true, decide_eq_true_eq] at hw
    rcases hw with ((h1 | h1) | h1) | h1 <;> (subst h1; exact absurd h (by decide))

theorem natToCharsAux_digits :
    ∀ fuel m, m < fuel → ∀ c ∈ natToCharsAux fuel m, c.isDigit = true := by
  intro fuel
  induction fuel with
  | zero => intro m hm; omega
  | succ f ih =>
    intro m hm c hc
    simp only [natToCharsAux] at hc
    split at hc
    · next h10 =>
      simp only [List.mem_singleton] at hc
      subst hc; exact digitChar_isDigit h10
    · next h10 =>
      rw [List.mem_append] at hc
      rcases hc with hl | hl
      · exact ih (m / 10) (by omega) c hl
      · simp only [List.mem_singleton] at hl
        subst hl; exact digitChar_isDigit (by omega)

theorem natToCharsAux_ne_nil : ∀ fuel m, m < fuel → natToCharsAux fuel m ≠ [] := by
  intro fuel
  induction fuel with
  | zero => intro m hm; omega
  | succ f _ =>
    intro m _
    simp only [natToCharsAux]
    split
    · simp
    · simp

theorem digitsValAux_append (xs ys : List Char) (a : ℕ) :
    digitsValAux (xs ++ ys) a = (digitsValAux xs a).bind fun b => digitsValAux ys b := by
  induction xs generalizing a with
  | nil => simp [digitsValAux]
  | cons c rest ih =>
    simp only [List.cons_append, digitsValAux, List.append_eq]
    by_cases hc : c.isDigit
    · rw [if_pos hc, if_pos hc, ih]
    · rw [if_neg hc, if_neg hc]; rfl

theorem natToCharsAux_val :
    ∀ fuel m, m < fuel → ∀ a,
      digitsValAux (natToCharsAux fuel m) a =
        some (a * 10 ^ (natToCharsAux fuel m).length + m) := by
  intro fuel
  induction fuel with
  | zero => intro m hm; omega
  | succ f ih =>
    intro m hm a
    by_cases h10 : m < 10
    · simp only [natToCharsAux, if_pos h10]
      simp only [digitsValAux, digitChar_isDigit h10, if_pos, digitChar_toNat h10,
        List.length_singleton, pow_one]
    · simp only [natToCharsAux, if_neg h10]
      rw [digitsValAux_append, ih (m / 10) (by omega)]
      simp only [Option.some_bind, digitsValAux, digitChar_isDigit (show m % 10 < 10 by omega),
        if_pos, digitChar_toNat (show m % 10 < 10 by omega), List.length_append,
        List.length_singleton]
      have h2 : m / 10 * 10 + m % 10 = m := by omega
      have h3 : (a * 10 ^ (natToCharsAux f (m / 10)).length + m / 10) * 10 + m % 10 =
          a * 10 ^ ((natToCharsAux f (m / 10)).length + 1) + m :=
        calc (a * 10 ^ (natToCharsAux f (m / 10)).length + m / 10) * 10 + m % 10
            = a * (10 ^ (natToCharsAux f (m / 10)).length * 10) +
              (m / 10 * 10 + m % 10) := by ring
          _ = a * 10 ^ ((natToCharsAux f (m / 10)).length + 1) + m := by
              rw [← pow_succ, h2]
      rw [h3]

theorem natToChars_digits {n : ℕ} : ∀ c ∈ natToChars n, c.isDigit = true :=
  natToCharsAux_digits (n + 1) n (Nat.lt_succ_self n)

theorem natToChars_ne_nil (n : ℕ) : natToChars n ≠ [] :=
  natToCharsAux_ne_nil (n + 1) n (Nat.lt_succ_self n)

theorem digitsVal_eq_aux {l : List Char} (h : l ≠ []) : digitsVal l = digitsValAux l 0 := by
  cases l with
  | nil => exact absurd rfl h
  | cons c rest => rfl

theorem digitsVal_natToChars (n : ℕ) : digitsVal (natToChars n) = some n := by
  rw [digitsVal_eq_aux (natToChars_ne_nil n)]
  rw [show natToChars n = natToCharsAux (n + 1) n from rfl]
  rw [natToCharsAux_val (n + 1) n (Nat.lt_succ_self n) 0]
  simp

theorem dropWhile_eq_self_of_not {p : Char → Bool} {l : List Char}
    (h : ∀ c ∈ l, p c = false) : l.dropWhile p = l := by
  cases l with
  | nil => rfl
  | cons c rest =>
    rw [List.dropWhile_cons, h c (List.mem_cons_self c rest)]
    simp

theorem stripChars_of_digits {l : List Char} (h : ∀ c ∈ l, c.isDigit = true) :
    stripChars l = l := by
  unfold stripChars
  rw [dropWhile_eq_self_of_not (fun c hc => isDigit_not_ws (h c hc))]
  rw [dropWhile_eq_self_of_not (fun c hc => isDigit_not_ws (h c (List.mem_reverse.mp hc)))]
  exact List.reverse_reverse l

theorem pyInt?_digits {l : List Char} (hne : l ≠ []) (h : ∀ c ∈ l, c.isDigit = true) :
    pyInt? l = (digitsVal l).map fun n => (n : ℤ) := by
  cases l with
  | nil => exact absurd rfl hne
  | cons c rest =>
    have hc := h c (List.mem_cons_self c rest)
    unfold pyInt?
    rw [stripChars_of_digits h]
    simp only [if_neg (isDigit_ne_minus hc), if_neg (isDigit_ne_plus hc)]

theorem splitOnColon_ne_nil : ∀ l : List Char, splitOnColon l ≠ [] := by
  intro l
  cases l with
  | nil => simp [splitOnColon]
  | cons c rest =>
    simp only [splitOnColon]
    split
    · simp
    · split <;> simp

theorem splitOnColon_no_colon : ∀ {l : List Char}, (∀ c ∈ l, c ≠ ':') →
    splitOnColon l = [l] := by
  intro l
  induction l with
  | nil => intro _; rfl
  | cons c rest ih =>
    intro h
    have hi := ih (fun x hx => h x (List.mem_cons_of_mem c hx))
    simp only [splitOnColon, hi]
    rw [if_neg (h c (List.mem_cons_self c rest))]

theorem splitOnColon_append {xs : List Char} (ys : List Char)
    (h : ∀ c ∈ xs, c ≠ ':') :
    splitOnColon (xs ++ ':' :: ys) = xs :: splitOnColon ys := by
  induction xs with
  | nil =>
    simp only [List.nil_append, splitOnColon]
    cases hsp : splitOnColon ys with
    | nil => exact absurd hsp (splitOnColon_ne_nil ys)
    | cons f t => simp
  | cons c rest ih =>
    have hi := ih (fun x hx => h x (List.mem_cons_of_mem c hx))
    simp only [List.cons_append, splitOnColon, List.append_eq, hi]
    rw [if_neg (h c (List.mem_cons_self c rest))]

theorem digitsValAux_replicate_zero (k : ℕ) (cs : List Char) :
    digitsValAux (List.replicate k '0' ++ cs) 0 = digitsValAux cs 0 := by
  induction k with
  | zero => rfl
  | succ n ih =>
    rw [List.replicate_succ, List.cons_append]
    simp only [digitsValAux]
    norm_num
    exact ih

theorem pad2c_ne_nil (l : List Char) : pad2c l ≠ [] := by
  intro he
  have h1 := congrArg List.length he
  unfold pad2c at h1
  split at h1
  · next hl => simp only [List.length_nil] at h1; omega
  · next hl =>
    simp only [List.length_append, List.length_replicate, List.length_nil] at h1
    omega

theorem pad2c_digits {l : List Char} (h : ∀ c ∈ l, c.isDigit = true) :
    ∀ c ∈ pad2c l, c.isDigit = true := by
  intro c hc
  unfold pad2c at hc
  split at hc
  · exact h c hc
  · rw [List.mem_append] at hc
    rcases hc with hl | hl
    · rw [List.eq_of_mem_replicate hl]; decide
    · exact h c hl

theorem digitsVal_pad2c {l : List Char} (hne : l ≠ []) :
    digitsVal (pad2c l) = digitsVal l := by
  unfold pad2c
  split
  · rfl
  · rw [digitsVal_eq_aux (by
      intro he
      rw [List.append_eq_nil] at he
      exact hne he.2)]
    rw [digitsVal_eq_aux hne]
    exact digitsValAux_replicate_zero _ l

theorem parse_hms_fields {A B C : List Char} {h m s : ℕ}
    (nA : A ≠ []) (nB : B ≠ []) (nC : C ≠ [])
    (dA : ∀ c ∈ A, c.isDigit = true) (dB : ∀ c ∈ B, c.isDigit = true)
    (dC : ∀ c ∈ C, c.isDigit = true)
    (vA : digitsVal A = some h) (vB : digitsVal B = some m) (vC : digitsVal C = some s)
    (hm : m ≤ 59) (hs : s ≤ 59) :
    parse_hms (fieldsJoin A B C) =
      some ((((h : ℤ) * 3600 + (m : ℤ) * 60 + (s : ℤ)) : ℚ)) := by
  unfold parse_hms fieldsJoin
  rw [show (String.mk (A ++ ':' :: (B ++ ':' :: C))).data =
    A ++ ':' :: (B ++ ':' :: C) from rfl]
  rw [splitOnColon_append _ (fun c hc => isDigit_ne_colon (dA c hc))]
  rw [splitOnColon_append _ (fun c hc => isDigit_ne_colon (dB c hc))]
  rw [splitOnColon_no_colon (fun c hc => isDigit_ne_colon (dC c hc))]
  show (match pyInt? A, pyInt? B, pyInt? C with
    | some h, some m, some sec =>
      if h < 0 ∨ m < 0 ∨ sec < 0 ∨ 59 < m ∨ 59 < sec then none
      else some (((h * 3600 + m * 60 + sec : ℤ) : ℚ))
    | _, _, _ => none) = _
  rw [pyInt?_digits nA dA, pyInt?_digits nB dB, pyInt?_digits nC dC, vA, vB, vC]
  show (if (h : ℤ) < 0 ∨ (m : ℤ) < 0 ∨ (s : ℤ) < 0 ∨ 59 < (m : ℤ) ∨ 59 < (s : ℤ)
      then (none : Option ℚ)
      else some ((((h : ℤ) * 3600 + (m : ℤ) * 60 + (s : ℤ) : ℤ) : ℚ))) = _
  rw [if_neg (by omega)]
  norm_cast

theorem ratFloor_eq_floor (q : ℚ) : Rat.floor q = ⌊q⌋ := by
  rw [Rat.floor_def' q, Rat.floor_def]

theorem pyTrunc_of_nonneg {x : ℚ} (hx : 0 ≤ x) : pyTrunc x = ⌊x⌋ := by
  unfold pyTrunc
  rw [if_pos hx, ratFloor_eq_floor]

theorem intToChars_of_nonneg {i : ℤ} (hi : 0 ≤ i) : intToChars i = natToChars i.toNat := by
  unfold intToChars
  rw [if_neg (by omega)]

theorem digitsVal_pad2c_natToChars (n : ℕ) : digitsVal (pad2c (natToChars n)) = some n := by
  rw [digitsVal_pad2c (natToChars_ne_nil n), digitsVal_natToChars]

theorem format_hms_eq_mkHMS {x : ℚ} (hx : 0 ≤ x) :
    format_hms x =
      mkHMS (⌊x⌋ / 3600).toNat ((⌊x⌋ % 3600) / 60).toNat (⌊x⌋ % 60).toNat := by
  have ht : 0 ≤ ⌊x⌋ := Int.floor_nonneg.mpr hx
  show fieldsJoin (pad2c (intToChars (pyTrunc x / 3600)))
      (pad2c (intToChars ((pyTrunc x % 3600) / 60)))
      (pad2c (intToChars (pyTrunc x % 60))) = _
  rw [pyTrunc_of_nonneg hx]
  rw [intToChars_of_nonneg (by omega : (0:ℤ) ≤ ⌊x⌋ / 3600)]
  rw [intToChars_of_nonneg (by omega : (0:ℤ) ≤ (⌊x⌋ % 3600) / 60)]
  rw [intToChars_of_nonneg (by omega : (0:ℤ) ≤ ⌊x⌋ % 60)]
  rfl

theorem parse_hms_mkHMS (h m s : ℕ) (hm : m ≤ 59) (hs : s ≤ 59) :
    parse_hms (mkHMS h m s) =
      some ((((h : ℤ) * 3600 + (m : ℤ) * 60 + (s : ℤ)) : ℚ)) :=
  parse_hms_fields (pad2c_ne_nil _) (pad2c_ne_nil _) (pad2c_ne_nil _)
    (pad2c_digits (fun c hc => natToChars_digits c hc))
    (pad2c_digits (fun c hc => natToChars_digits c hc))
    (pad2c_digits (fun c hc => natToChars_digits c hc))
    (digitsVal_pad2c_natToChars h) (digitsVal_pad2c_natToChars m)
    (digitsVal_pad2c_natToChars s) hm hs

/-- C2: the time codec functions are mutually inverse.  First conjunct:
`parse_hms (format_hms x)` recovers `floor x` (as a float) for every
`x ≥ 0`.  Second conjunct: on every canonical zero-padded `HH:MM:SS`
string (minutes and seconds below 60, hours unbounded), `parse_hms`
succeeds and `format_hms` maps its value back to the identical string. -/
theorem C2_time_codec_roundtrip :
    (∀ x : ℚ, 0 ≤ x → parse_hms (format_hms x) = some ((⌊x⌋ : ℤ) : ℚ)) ∧
    (∀ h m s : ℕ, m < 60 → s < 60 →
      ∃ q : ℚ, parse_hms (mkHMS h m s) = some q ∧ format_hms q = mkHMS h m s) := by
  constructor
  · intro x hx
    have ht : 0 ≤ ⌊x⌋ := Int.floor_nonneg.mpr hx
    rw [format_hms_eq_mkHMS hx]
    rw [parse_hms_mkHMS _ _ _ (by omega) (by omega)]
    have e : ((((⌊x⌋ / 3600).toNat : ℤ)) * 3600 + (((⌊x⌋ % 3600) / 60).toNat : ℤ) * 60 +
        (((⌊x⌋ % 60).toNat : ℤ))) = ⌊x⌋ := by omega
    rw [show ((((⌊x⌋ / 3600).toNat : ℤ) : ℚ) * 3600 + (((⌊x⌋ % 3600 / 60).toNat : ℤ) : ℚ) * 60 +
      (((⌊x⌋ % 60).toNat : ℤ) : ℚ)) =
      (((((⌊x⌋ / 3600).toNat : ℤ)) * 3600 + (((⌊x⌋ % 3600) / 60).toNat : ℤ) * 60 +
        (((⌊x⌋ % 60).toNat : ℤ)) : ℤ) : ℚ) by norm_cast]
    rw [e]
  · intro h m s hm hs
    refine ⟨_, parse_hms_mkHMS h m s (by omega) (by omega), ?_⟩
    have hN : (0 : ℚ) ≤ (((h : ℤ) * 3600 + (m : ℤ) * 60 + (s : ℤ) : ℤ) : ℚ) := by
      have : (0 : ℤ) ≤ (h : ℤ) * 3600 + (m : ℤ) * 60 + (s : ℤ) := by omega
      exact_mod_cast this
    rw [show ((((h : ℤ) * 3600 + (m : ℤ) * 60 + (s : ℤ)) : ℚ)) =
      ((((h : ℤ) * 3600 + (m : ℤ) * 60 + (s : ℤ) : ℤ) : ℚ)) by norm_cast]
    rw [format_hms_eq_mkHMS hN, Int.floor_intCast]
    have e1 : (((h : ℤ) * 3600 + (m : ℤ) * 60 + (s : ℤ)) / 3600).toNat = h := by omega
    have e2 : ((((h : ℤ) * 3600 + (m : ℤ) * 60 + (s : ℤ)) % 3600) / 60).toNat = m := by
      omega
    have e3 : (((h : ℤ) * 3600 + (m : ℤ) * 60 + (s : ℤ)) % 60).toNat = s := by omega
    rw [e1, e2, e3]

/-- Witness for C2 at concrete inputs `x = 7/2` and `(h, m, s) = (1, 2, 3)`. -/
theorem C2_time_codec_roundtrip_witness :
    parse_hms (format_hms (7 / 2 : ℚ)) = some ((⌊(7 / 2 : ℚ)⌋ : ℤ) : ℚ) ∧
    ∃ q : ℚ, parse_hms (mkHMS 1 2 3) = some q ∧ format_hms q = mkHMS 1 2 3 :=
  ⟨C2_time_codec_roundtrip.1 (7 / 2) (by norm_num),
   C2_time_codec_roundtrip.2 1 2 3 (by norm_num) (by norm_num)⟩

/-- Modelled from the spec, for comparison with `parse_hms`: the string
splits on colons into exactly three fields, each field parses as a Python
integer, hours is at least 0 and minutes/seconds are in `[0, 59]`; the
zero-padding requirement of the original claim is dropped, as forced by
the counterexample `"1:2:3"`. -/
def hmsMatches (str : String) : Prop :=
  ∃ h m sec : ℤ, ∃ a b c : List Char,
    splitOnColon str.data = [a, b, c] ∧
    pyInt? a = some h ∧ pyInt? b = some m ∧ pyInt? c = some sec ∧
    0 ≤ h ∧ 0 ≤ m ∧ m ≤ 59 ∧ 0 ≤ sec ∧ sec ≤ 59

/-- C3 counterexample: the claim says `parse_hms` fails on the
non-zero-padded string `"1:2:3"`, but the code accepts it and returns
`3723.0` seconds. -/
theorem C3_parse_hms_counterexample : parse_hms "1:2:3" = some ((3723 : ℤ) : ℚ) := by
  decide

theorem parse_hms_isSome_iff (str : String) : (parse_hms str).isSome ↔ hmsMatches str := by
  unfold parse_hms hmsMatches
  rcases hsp : splitOnColon str.data with _ | ⟨a, _ | ⟨b, _ | ⟨c, _ | ⟨d, t⟩⟩⟩⟩
  · simp
  · simp
  · simp
  · rcases hA : pyInt? a with _ | h
    · simp [hA]
    · rcases hB : pyInt? b with _ | m
      · simp [hA, hB]
      · rcases hC : pyInt? c with _ | sec
        · simp [hA, hB, hC]
        · simp only [hA, hB, hC]
          by_cases hcond : h < 0 ∨ m < 0 ∨ sec < 0 ∨ 59 < m ∨ 59 < sec
          · rw [if_pos hcond]
            simp only [Option.isSome_none, Bool.false_eq_true, false_iff]
            rintro ⟨h', m', sec', a', b', c', hsp', hA', hB', hC', hb⟩
            obtain ⟨e1, e2, e3⟩ : a = a' ∧ b = b' ∧ c = c' := by
              simpa using hsp'
            subst e1; subst e2; subst e3
            rw [hA] at hA'; rw [hB] at hB'; rw [hC] at hC'
            cases hA'; cases hB'; cases hC'
            omega
          · rw [if_neg hcond]
            simp only [Option.isSome_some, true_iff]
            exact ⟨h, m, sec, a, b, c, rfl, hA, hB, hC, by omega⟩
  · simp

/-- C3 (amended): `parse_hms` rejection is as claimed except that zero
padding is not required — `int()` accepts unpadded fields, so `"1:2:3"`
succeeds with 3723.0 seconds, while `"25:99:00"` (minutes out of range)
and `"not:a:time"` (non-integer fields) fail; in general it succeeds
exactly on strings of three colon-separated integer fields with hours at
least 0 and minutes/seconds in `[0, 59]`. -/
theorem C3_parse_hms_amended :
    parse_hms "1:2:3" = some ((3723 : ℤ) : ℚ) ∧
    parse_hms "25:99:00" = none ∧
    parse_hms "not:a:time" = none ∧
    (∀ h m s : ℕ, m ≤ 59 → s ≤ 59 →
      parse_hms (rawHMS h m s) =
        some ((((h : ℤ) * 3600 + (m : ℤ) * 60 + (s : ℤ)) : ℚ))) ∧
    (∀ str : String, (parse_hms str).isSome ↔ hmsMatches str) := by
  refine ⟨by decide, by decide, by decide, ?_, parse_hms_isSome_iff⟩
  intro h m s hm hs
  exact parse_hms_fields (natToChars_ne_nil h) (natToChars_ne_nil m) (natToChars_ne_nil s)
    (fun c hc => natToChars_digits c hc) (fun c hc => natToChars_digits c hc)
    (fun c hc => natToChars_digits c hc)
    (digitsVal_natToChars h) (digitsVal_natToChars m) (digitsVal_natToChars s) hm hs

/-- Witness for C3 (amended) at the concrete triple `(h, m, s) = (0, 0, 0)`
and string `"0:0:0"`. -/
theorem C3_parse_hms_amended_witness :
    parse_hms (rawHMS 0 0 0) = some ((((0 : ℤ) * 3600 + (0 : ℤ) * 60 + (0 : ℤ)) : ℚ)) :=
  C3_parse_hms_amended.2.2.2.1 0 0 0 (by norm_num) (by norm_num)

/-! ### Pipeline model: `VideoAutomation.process_and_create_output`
(video_automation.py)

The environment captures everything the surrounding system decides: which
source files open (and with what properties), whether the two external
ffmpeg concat invocations exit zero, and the files already on disk.  The
filesystem is the set of file paths present, as a duplicate-free list.
Stages not observable through the claims (fade-out, `os.nice`, logging)
carry no state and are noted in comments where they occur in the source.
-/

/-- One entry of the `durations` JSON object: `{"start": .., "end": ..}`. -/
structure TimeRange where
  start : ℚ
  stop : ℚ
  deriving DecidableEq

/-- What `VideoFileClip` reports for an openable source: `clip.fps`
(`none` when the source reports no frame rate) and the height the clip has
after `.resized(width=1440)`. -/
structure ClipInfo where
  fps : Option ℚ
  height1440 : ℕ
  deriving DecidableEq

/-- The `processing_data` payload read from the job JSON file. -/
structure ProcessingData where
  inputs : List String
  durations : List (String × TimeRange)
  output_file_name : String
  deriving DecidableEq

/-- External world for one `process_and_create_output` invocation. -/
structure PipelineEnv where
  inputFolder : String
  outputFolder : String
  clips : String → Option ClipInfo
  fastOk : Bool
  fallbackOk : Bool
  fallbackStderr : String
  initFs : List String
  absPath : String → String

/-- `os.path.join` for the joins this program performs (relative second
component). -/
def joinPath (d f : String) : String := d ++ "/" ++ f

/-- The decimal-rendered string of a natural number (`str(index)`). -/
def keyStr (n : ℕ) : String := ⟨natToChars n⟩

/-- `temp_dir = os.path.join(OUTPUT_FOLDER, "_tmp_segments")`. -/
def tempDirOf (outputFolder : String) : String := joinPath outputFolder "_tmp_segments"

/-- `os.path.join(temp_dir, f"segment_{index}.mp4")`. -/
def segPath (outputFolder : String) (i : ℕ) : String :=
  joinPath (tempDirOf outputFolder) ("segment_" ++ keyStr i ++ ".mp4")

/-- `os.path.join(temp_dir, "concat_list.txt")`. -/
def manifestPath (outputFolder : String) : String :=
  joinPath (tempDirOf outputFolder) "concat_list.txt"

/-- A file write: the path becomes present (overwrite keeps one copy). -/
def fsAdd (p : String) (fs : List String) : List String :=
  if p ∈ fs then fs else p :: fs

/-- `os.remove` guarded by `os.path.exists`: the path becomes absent. -/
def fsRemove (p : String) (fs : List String) : List String :=
  fs.filter fun q => q ≠ p

/-- `os.listdir(d)` membership: paths under directory `d`. -/
def underDir (d p : String) : Bool := (d ++ "/").data.isPrefixOf p.data

/-- `durations.get(str(index), None)`, with the falsy-dict check of the
loop header (`if not duration_info: continue`); the objects built by
`_build_processing_payload` are never empty, so falsy means absent. -/
def lookupDur (durs : List (String × TimeRange)) (k : String) : Option TimeRange :=
  (durs.find? fun p => p.1 == k).map Prod.snd

/-- `clip.fps or 30`: Python `or` takes the fallback on falsy (`None` or
`0`) frame rates. -/
def fpsOr30 (f : Option ℚ) : ℚ :=
  match f with
  | none => 30
  | some q => if q = 0 then 30 else q

/-- One segment written by the render loop, with everything observable
about it: its loop index, source path and time range, the fps passed to
`write_videofile`, the written dimensions, and the temp-file path. -/
structure Seg where
  index : ℕ
  source : String
  range : TimeRange
  fps : ℚ
  size : ℕ × ℕ
  path : String
  deriving DecidableEq

/-- The locals of the render loop: `target_fps`, `target_size`,
`temp_files`, plus the segment trace and the filesystem. -/
structure RenderState where
  targetFps : Option ℚ
  targetSize : Option (ℕ × ℕ)
  tempFiles : List String
  segs : List Seg
  fs : List String
  deriving DecidableEq

/-- The segment written by one loop body execution: `target_fps` is set on
first use (`clip.fps or 30`) and reused afterwards; the clip is scaled to
width 1440, and when `target_size` is already set and differs from the
scaled dimensions the clip is force-resized to `target_size`. -/
def stepSeg (env : PipelineEnv) (st : RenderState) (index : ℕ) (filename : String)
    (r : TimeRange) (info : ClipInfo) : Seg :=
  { index := index
    source := joinPath env.inputFolder filename
    range := r
    fps := match st.targetFps with
      | none => fpsOr30 info.fps
      | some q => q
    size := match st.targetSize with
      | none => (1440, info.height1440)
      | some ts => if ((1440 : ℕ), info.height1440) ≠ ts then ts else (1440, info.height1440)
    path := segPath env.outputFolder index }

/-- The loop locals after one successful loop body execution: `target_fps`
and `target_size` are captured if unset, the temp file is written and
registered. -/
def stepState (env : PipelineEnv) (st : RenderState) (index : ℕ) (filename : String)
    (r : TimeRange) (info : ClipInfo) : RenderState :=
  { targetFps := some (stepSeg env st index filename r info).fps
    targetSize := some (match st.targetSize with
      | none => ((1440 : ℕ), info.height1440)
      | some ts => ts)
    tempFiles := st.tempFiles ++ [segPath env.outputFolder index]
    segs := st.segs ++ [stepSeg env st index filename r info]
    fs := fsAdd (segPath env.outputFolder index) st.fs }

/-- The `for index, video_filename in enumerate(inputs)` loop.  A part
with no duration info is skipped (`continue`); `VideoFileClip` on an
unopenable path raises, modelled as `.error` carrying the locals at the
raise (the loop body has no handler, so the exception aborts the whole
loop).  For an opened clip the body subclips to the requested range, fades
out, resizes, drops audio and writes the segment, as decomposed in
`stepSeg`/`stepState`. -/
def renderLoop (env : PipelineEnv) (durs : List (String × TimeRange)) :
    List String → ℕ → RenderState → Except RenderState RenderState
  | [], _, st => .ok st
  | filename :: rest, index, st =>
    match lookupDur durs (keyStr index) with
    | none => renderLoop env durs rest (index + 1) st
    | some r =>
      match env.clips (joinPath env.inputFolder filename) with
      | none => .error st
      | some info => renderLoop env durs rest (index + 1) (stepState env st index filename r info)

/-- The single-quote character (escaped in manifest paths). -/
def squote : Char := Char.ofNat 39

/-- `os.path.abspath(p).replace(squote, backslash + squote)`. -/
def escapeQuotes (cs : List Char) : List Char :=
  cs.flatMap fun c => if c = squote then [Char.ofNat 92, squote] else [c]

/-- One manifest line, `file <quoted absolute path>` (the trailing newline
of the written line is implicit in the line list). -/
def manifestLineFor (env : PipelineEnv) (p : String) : String :=
  "file " ++ String.mk (squote :: (escapeQuotes (env.absPath p).data ++ [squote]))

/-- Everything observable about one `process_and_create_output` call. -/
structure RunResult where
  ret : Option Bool
  st : RenderState
  manifestLines : Option (List String)
  fastAttempted : Bool
  fallbackAttempted : Bool
  diagPrinted : Option String
  fs : List String
  tempDirRemoved : Bool

/-- The `finally` block: remove every registered temp file (each remove
independently guarded), remove the concat manifest when its variable was
set, then remove the temp directory when `os.listdir` finds it empty. -/
def finishRun (env : PipelineEnv) (ret : Option Bool) (st : RenderState)
    (manifest : Option (List String)) (fastA fbA : Bool) (diag : Option String)
    (fsAtExit : List String) : RunResult :=
  let fs1 := st.tempFiles.foldl (fun acc p => fsRemove p acc) fsAtExit
  let fs2 := if manifest.isSome then fsRemove (manifestPath env.outputFolder) fs1 else fs1
  let removedDir := (fs2.filter fun p => underDir (tempDirOf env.outputFolder) p).isEmpty
  ⟨ret, st, manifest, fastA, fbA, diag, fs2, removedDir⟩

/-- `VideoAutomation.process_and_create_output`.  The payload is the typed
form the worker always produces, so the `processing_data == {}` early
return and the dict key lookups cannot fail here.  `os.nice`, the log
folder and `FFREPORT` carry no modelled state.  After the render loop:
zero temp files returns `False`; otherwise the manifest is written and the
fast stream-copy concat runs, falling back to the re-encode concat
(`-c:v libx264 -r <target_fps or 30> -an`) when the fast invocation exits
non-zero; if both fail, the captured stderr is printed and `False`
returned.  An exception escaping the loop is caught by the broad handler,
so the function falls through to `None`.  Every exit path runs the
`finally` cleanup. -/
def process_and_create_output (env : PipelineEnv) (pd : ProcessingData) : RunResult :=
  let st0 : RenderState := ⟨none, none, [], [], env.initFs⟩
  match renderLoop env pd.durations pd.inputs 0 st0 with
  | .error st => finishRun env none st none false false none st.fs
  | .ok st =>
    if st.tempFiles.isEmpty then
      finishRun env (some false) st none false false none st.fs
    else
      let output_path := joinPath env.outputFolder pd.output_file_name
      let lines := st.tempFiles.map (manifestLineFor env)
      let fs1 := fsAdd (manifestPath env.outputFolder) st.fs
      if env.fastOk then
        finishRun env (some true) st (some lines) true false none (fsAdd output_path fs1)
      else if env.fallbackOk then
        finishRun env (some true) st (some lines) true true none (fsAdd output_path fs1)
      else
        finishRun env (some false) st (some lines) true true
          (some env.fallbackStderr) fs1

/-- The loop locals at loop exit, whether the loop finished or raised. -/
def extractSt : Except RenderState RenderState → RenderState
  | .ok st => st
  | .error st => st

/-- Whether the loop raised. -/
def loopRaised : Except RenderState RenderState → Bool
  | .ok _ => false
  | .error _ => true

theorem process_run_st (env : PipelineEnv) (pd : ProcessingData) :
    (process_and_create_output env pd).st =
      extractSt (renderLoop env pd.durations pd.inputs 0 ⟨none, none, [], [], env.initFs⟩) := by
  simp only [process_and_create_output]
  cases h : renderLoop env pd.durations pd.inputs 0 ⟨none, none, [], [], env.initFs⟩ with
  | error st => rfl
  | ok st =>
    simp only [extractSt]
    split
    · rfl
    · split
      · rfl
      · split <;> rfl

theorem renderLoop_fps_persist (env : PipelineEnv) (durs : List (String × TimeRange)) :
    ∀ (inputs : List String) (index : ℕ) (st : RenderState) (q : ℚ),
      st.targetFps = some q →
      (extractSt (renderLoop env durs inputs index st)).targetFps = some q := by
  intro inputs
  induction inputs with
  | nil => intro index st q hq; exact hq
  | cons filename rest ih =>
    intro index st q hq
    simp only [renderLoop]
    cases lookupDur durs (keyStr index) with
    | none => exact ih (index + 1) st q hq
    | some r =>
      simp only
      cases env.clips (joinPath env.inputFolder filename) with
      | none => exact hq
      | some info =>
        simp only
        refine ih (index + 1) _ q ?_
        simp only [stepState, stepSeg, hq]

theorem renderLoop_size_persist (env : PipelineEnv) (durs : List (String × TimeRange)) :
    ∀ (inputs : List String) (index : ℕ) (st : RenderState) (ts : ℕ × ℕ),
      st.targetSize = some ts →
      (extractSt (renderLoop env durs inputs index st)).targetSize = some ts := by
  intro inputs
  induction inputs with
  | nil => intro index st ts hts; exact hts
  | cons filename rest ih =>
    intro index st ts hts
    simp only [renderLoop]
    cases lookupDur durs (keyStr index) with
    | none => exact ih (index + 1) st ts hts
    | some r =>
      simp only
      cases env.clips (joinPath env.inputFolder filename) with
      | none => exact hts
      | some info =>
        simp only
        refine ih (index + 1) _ ts ?_
        simp only [stepState, stepSeg, hts]

theorem renderLoop_segs_inv (env : PipelineEnv) (durs : List (String × TimeRange)) :
    ∀ (inputs : List String) (index : ℕ) (st : RenderState),
      (∀ s ∈ st.segs, some s.fps = st.targetFps ∧ some s.size = st.targetSize) →
      ∀ s ∈ (extractSt (renderLoop env durs inputs index st)).segs,
        some s.fps = (extractSt (renderLoop env durs inputs index st)).targetFps ∧
        some s.size = (extractSt (renderLoop env durs inputs index st)).targetSize := by
  intro inputs
  induction inputs with
  | nil => intro index st hinv; exact hinv
  | cons filename rest ih =>
    intro index st hinv
    simp only [renderLoop]
    cases lookupDur durs (keyStr index) with
    | none => exact ih (index + 1) st hinv
    | some r =>
      simp only
      cases hclip : env.clips (joinPath env.inputFolder filename) with
      | none => exact hinv
      | some info =>
        simp only
        refine ih (index + 1) _ ?_
        intro s hs
        simp only [stepState, List.mem_append, List.mem_singleton] at hs
        rcases hs with hs | hs
        · obtain ⟨h1, h2⟩ := hinv s hs
          constructor
          · cases hfp : st.targetFps with
            | none => rw [hfp] at h1; exact absurd h1 (by simp)
            | some q =>
              rw [hfp] at h1
              simp only [stepState, stepSeg, hfp]
              exact h1
          · cases hsz : st.targetSize with
            | none => rw [hsz] at h2; exact absurd h2 (by simp)
            | some ts =>
              rw [hsz] at h2
              simp only [stepState, hsz]
              exact h2
        · subst hs
          refine ⟨rfl, ?_⟩
          simp only [stepState, stepSeg]
          cases hsz : st.targetSize with
          | none => rfl
          | some ts =>
            simp only
            split
            · rfl
            · next hne => rw [not_ne_iff.mp hne]

theorem renderLoop_segs_extend (env : PipelineEnv) (durs : List (String × TimeRange)) :
    ∀ (inputs : List String) (index : ℕ) (st : RenderState),
      ∃ tail, (extractSt (renderLoop env durs inputs index st)).segs = st.segs ++ tail := by
  intro inputs
  induction inputs with
  | nil => intro index st; exact ⟨[], (List.append_nil _).symm⟩
  | cons filename rest ih =>
    intro index st
    simp only [renderLoop]
    cases lookupDur durs (keyStr index) with
    | none => exact ih (index + 1) st
    | some r =>
      simp only
      cases env.clips (joinPath env.inputFolder filename) with
      | none => exact ⟨[], (List.append_nil _).symm⟩
      | some info =>
        simp only
        obtain ⟨tail, htail⟩ := ih (index + 1) (stepState env st index filename r info)
        refine ⟨[stepSeg env st index filename r info] ++ tail, ?_⟩
        rw [htail]
        simp only [stepState, List.append_assoc]

theorem renderLoop_segs_dur (env : PipelineEnv) (durs : List (String × TimeRange)) :
    ∀ (inputs : List String) (index : ℕ) (st : RenderState),
      (∀ s ∈ st.segs, (lookupDur durs (keyStr s.index)).isSome) →
      ∀ s ∈ (extractSt (renderLoop env durs inputs index st)).segs,
        (lookupDur durs (keyStr s.index)).isSome := by
  intro inputs
  induction inputs with
  | nil => intro index st hinv; exact hinv
  | cons filename rest ih =>
    intro index st hinv
    simp only [renderLoop]
    cases hd : lookupDur durs (keyStr index) with
    | none => exact ih (index + 1) st hinv
    | some r =>
      simp only
      cases env.clips (joinPath env.inputFolder filename) with
      | none => exact hinv
      | some info =>
        simp only
        refine ih (index + 1) _ ?_
        intro s hs
        simp only [stepState, List.mem_append, List.mem_singleton] at hs
        rcases hs with hs | hs
        · exact hinv s hs
        · subst hs
          simp only [stepSeg, hd, Option.isSome_some]

theorem renderLoop_first_seg (env : PipelineEnv) (durs : List (String × TimeRange)) :
    ∀ (inputs : List String) (index : ℕ) (st : RenderState),
      st.segs = [] → st.targetFps = none → st.targetSize = none →
      ∀ s0, (extractSt (renderLoop env durs inputs index st)).segs.head? = some s0 →
        ∃ info, env.clips s0.source = some info ∧ s0.fps = fpsOr30 info.fps ∧
          s0.size = ((1440 : ℕ), info.height1440) := by
  intro inputs
  induction inputs with
  | nil =>
    intro index st hsegs _ _ s0 hhead
    simp only [renderLoop, extractSt, hsegs] at hhead
    exact absurd hhead (by simp)
  | cons filename rest ih =>
    intro index st hsegs hfp hsz s0 hhead
    simp only [renderLoop] at hhead
    cases hd : lookupDur durs (keyStr index) with
    | none =>
      rw [hd] at hhead
      exact ih (index + 1) st hsegs hfp hsz s0 hhead
    | some r =>
      rw [hd] at hhead
      simp only at hhead
      cases hclip : env.clips (joinPath env.inputFolder filename) with
      | none =>
        rw [hclip] at hhead
        simp only [extractSt, hsegs] at hhead
        exact absurd hhead (by simp)
      | some info =>
        rw [hclip] at hhead
        simp only at hhead
        obtain ⟨tail, htail⟩ :=
          renderLoop_segs_extend env durs rest (index + 1) (stepState env st index filename r info)
        rw [htail] at hhead
        simp only [stepState, hsegs, List.nil_append, List.cons_append,
          List.head?_cons, Option.some.injEq] at hhead
        subst hhead
        refine ⟨info, ?_, ?_, ?_⟩
        · simp only [stepSeg]
          exact hclip
        · simp only [stepSeg, hfp]
        · simp only [stepSeg, hsz]

/-- C4: the target frame rate is fixed by the first rendered clip (its
native rate or 30 when the source reports none), the target dimensions by
the first rendered segment (width 1440), and every segment written to disk
shares the first segment's fps and dimensions. -/
theorem C4_first_segment_fixes_target (env : PipelineEnv) (pd : ProcessingData) (s0 : Seg)
    (hhead : (process_and_create_output env pd).st.segs.head? = some s0) :
    (∃ info, env.clips s0.source = some info ∧ s0.fps = fpsOr30 info.fps ∧
      s0.size = ((1440 : ℕ), info.height1440)) ∧
    ∀ s ∈ (process_and_create_output env pd).st.segs, s.fps = s0.fps ∧ s.size = s0.size := by
  rw [process_run_st] at hhead
  constructor
  · exact renderLoop_first_seg env pd.durations pd.inputs 0 _ rfl rfl rfl s0 hhead
  · intro s hs
    rw [process_run_st] at hs
    have hinv := renderLoop_segs_inv env pd.durations pd.inputs 0
      ⟨none, none, [], [], env.initFs⟩ (by intro s hs; exact absurd hs (by simp))
    have hmem : s0 ∈ (extractSt (renderLoop env pd.durations pd.inputs 0
        ⟨none, none, [], [], env.initFs⟩)).segs := by
      cases hsgs : (extractSt (renderLoop env pd.durations pd.inputs 0
          ⟨none, none, [], [], env.initFs⟩)).segs with
      | nil => rw [hsgs] at hhead; exact absurd hhead (by simp)
      | cons x xs =>
        rw [hsgs] at hhead
        simp only [List.head?_cons, Option.some.injEq] at hhead
        rw [← hhead]
        exact List.mem_cons_self x xs
    obtain ⟨hf0, hs0⟩ := hinv s0 hmem
    obtain ⟨hf1, hs1⟩ := hinv s hs
    exact ⟨Option.some.inj (hf1.trans hf0.symm), Option.some.inj (hs1.trans hs0.symm)⟩

/-- A three-part payload: parts 0, 1, 2 each trimmed to `[0, 5)`. -/
def pdC1 : ProcessingData :=
  { inputs := ["a.mp4", "b.mp4", "c.mp4"]
    durations := [("0", ⟨0, 5⟩), ("1", ⟨0, 5⟩), ("2", ⟨0, 5⟩)]
    output_file_name := "final.mp4" }

/-- Environment for the C1 scenario: parts 0 and 2 open fine, part 1's
source path is unreadable; both concat invocations would succeed. -/
def envC1 : PipelineEnv :=
  { inputFolder := "in", outputFolder := "out"
    clips := fun p =>
      if p = "in/a.mp4" then some ⟨some 24, 810⟩
      else if p = "in/c.mp4" then some ⟨some 24, 810⟩
      else none
    fastOk := true, fallbackOk := true, fallbackStderr := "diag"
    initFs := [], absPath := fun s => s }

/-- Environment in which every source opens with 24 fps and height 810
after scaling, and the fast concat succeeds. -/
def envAllOk : PipelineEnv :=
  { inputFolder := "in", outputFolder := "out"
    clips := fun _ => some ⟨some 24, 810⟩
    fastOk := true, fallbackOk := true, fallbackStderr := "diag"
    initFs := [], absPath := fun s => s }

/-- Environment in which every source opens but the fast concat exits
non-zero and the fallback succeeds. -/
def envC5 : PipelineEnv := { envAllOk with fastOk := false }

/-- Environment in which every source opens and both concat invocations
exit non-zero. -/
def envBothFail : PipelineEnv := { envAllOk with fastOk := false, fallbackOk := false }

/-- C1 counterexample: with parts 0 and 2 valid and part 1's source path
invalid, the claim says the job still returns success with two segments;
the code has no per-part handler, so the `VideoFileClip` exception aborts
the loop after segment 0, concatenation is never attempted, and the call
returns the falsy `None`. -/
theorem C1_lenient_skip_counterexample :
    (process_and_create_output envC1 pdC1).ret = none ∧
    (process_and_create_output envC1 pdC1).st.segs.map Seg.index = [0] ∧
    (process_and_create_output envC1 pdC1).fastAttempted = false := by
  decide

/-- C1 (amended): per-part render failures are fatal, not lenient — when
any processed part's source fails to open, `process_and_create_output`
returns the falsy `None` and never attempts concatenation; a part is
skipped (without failing the job) only when its duration entry is absent,
which is why every rendered segment has a duration entry. -/
theorem C1_render_failure_fatal (env : PipelineEnv) (pd : ProcessingData)
    (h : loopRaised (renderLoop env pd.durations pd.inputs 0
      ⟨none, none, [], [], env.initFs⟩) = true) :
    (process_and_create_output env pd).ret = none ∧
    (process_and_create_output env pd).fastAttempted = false ∧
    (process_and_create_output env pd).fallbackAttempted = false ∧
    ∀ s ∈ (process_and_create_output env pd).st.segs,
      (lookupDur pd.durations (keyStr s.index)).isSome := by
  cases hst : renderLoop env pd.durations pd.inputs 0
      ⟨none, none, [], [], env.initFs⟩ with
  | ok st => rw [hst] at h; exact absurd h (by simp [loopRaised])
  | error st =>
  refine ⟨?_, ?_, ?_, ?_⟩
  · simp only [process_and_create_output, hst]; rfl
  · simp only [process_and_create_output, hst]; rfl
  · simp only [process_and_create_output, hst]; rfl
  · intro s hs
    rw [process_run_st] at hs
    exact renderLoop_segs_dur env pd.durations pd.inputs 0
      ⟨none, none, [], [], env.initFs⟩ (by intro s hs; exact absurd hs (by simp)) s hs

/-- Witness for C1 (amended) at the concrete environment of the claim
scenario. -/
theorem C1_render_failure_fatal_witness :
    (process_and_create_output envC1 pdC1).ret = none ∧
    (process_and_create_output envC1 pdC1).fastAttempted = false ∧
    (process_and_create_output envC1 pdC1).fallbackAttempted = false ∧
    ∀ s ∈ (process_and_create_output envC1 pdC1).st.segs,
      (lookupDur pdC1.durations (keyStr s.index)).isSome :=
  C1_render_failure_fatal envC1 pdC1 (by decide)

/-- The first segment rendered by `envAllOk` over `pdC1`. -/
def segZero : Seg :=
  ⟨0, "in/a.mp4", ⟨0, 5⟩, 24, (1440, 810), "out/_tmp_segments/segment_0.mp4"⟩

/-- Witness for C4 at a concrete three-part run. -/
theorem C4_first_segment_fixes_target_witness :
    (∃ info, envAllOk.clips segZero.source = some info ∧ segZero.fps = fpsOr30 info.fps ∧
      segZero.size = ((1440 : ℕ), info.height1440)) ∧
    ∀ s ∈ (process_and_create_output envAllOk pdC1).st.segs,
      s.fps = segZero.fps ∧ s.size = segZero.size :=
  C4_first_segment_fixes_target envAllOk pdC1 segZero (by decide)

theorem process_of_loop_error (env : PipelineEnv) (pd : ProcessingData) (st : RenderState)
    (h : renderLoop env pd.durations pd.inputs 0
      ⟨none, none, [], [], env.initFs⟩ = .error st) :
    process_and_create_output env pd = finishRun env none st none false false none st.fs := by
  simp only [process_and_create_output, h]

theorem process_of_loop_ok_empty (env : PipelineEnv) (pd : ProcessingData) (st : RenderState)
    (h : renderLoop env pd.durations pd.inputs 0
      ⟨none, none, [], [], env.initFs⟩ = .ok st)
    (he : st.tempFiles.isEmpty = true) :
    process_and_create_output env pd =
      finishRun env (some false) st none false false none st.fs := by
  simp only [process_and_create_output, h, he, if_true]

theorem process_of_loop_ok_concat (env : PipelineEnv) (pd : ProcessingData) (st : RenderState)
    (h : renderLoop env pd.durations pd.inputs 0
      ⟨none, none, [], [], env.initFs⟩ = .ok st)
    (hne : st.tempFiles.isEmpty = false) :
    process_and_create_output env pd =
      (if env.fastOk then
        finishRun env (some true) st (some (st.tempFiles.map (manifestLineFor env))) true
          false none
          (fsAdd (joinPath env.outputFolder pd.output_file_name)
            (fsAdd (manifestPath env.outputFolder) st.fs))
      else if env.fallbackOk then
        finishRun env (some true) st (some (st.tempFiles.map (manifestLineFor env))) true
          true none
          (fsAdd (joinPath env.outputFolder pd.output_file_name)
            (fsAdd (manifestPath env.outputFolder) st.fs))
      else
        finishRun env (some false) st (some (st.tempFiles.map (manifestLineFor env))) true
          true (some env.fallbackStderr)
          (fsAdd (manifestPath env.outputFolder) st.fs)) := by
  simp only [process_and_create_output, h, hne]
  rfl

/-- C5: when the concatenation stage is reached, the fast stream-copy path
runs first; the fallback re-encode runs exactly when the fast invocation
exits non-zero; the stage succeeds iff either invocation succeeds; and the
captured diagnostic output is printed exactly when both fail. -/
theorem C5_concat_fallback (env : PipelineEnv) (pd : ProcessingData)
    (hfa : (process_and_create_output env pd).fastAttempted = true) :
    ((process_and_create_output env pd).fallbackAttempted = true ↔ env.fastOk = false) ∧
    ((process_and_create_output env pd).ret = some true ↔
      (env.fastOk = true ∨ env.fallbackOk = true)) ∧
    ((process_and_create_output env pd).diagPrinted =
      if env.fastOk = false ∧ env.fallbackOk = false then some env.fallbackStderr
      else none) := by
  cases h : renderLoop env pd.durations pd.inputs 0 ⟨none, none, [], [], env.initFs⟩ with
  | error st =>
    rw [process_of_loop_error env pd st h] at hfa
    exact absurd hfa (by simp [finishRun])
  | ok st =>
    by_cases hemp : st.tempFiles.isEmpty
    · rw [process_of_loop_ok_empty env pd st h hemp] at hfa
      exact absurd hfa (by simp [finishRun])
    · rw [process_of_loop_ok_concat env pd st h (by simpa using hemp)]
      split
      · next hfast => simp [finishRun, hfast]
      · next hfast =>
        have hfast2 : env.fastOk = false := by
          cases hf : env.fastOk
          · rfl
          · exact absurd hf hfast
        split
        · next hfb => simp [finishRun, hfast2, hfb]
        · next hfb =>
          have hfb2 : env.fallbackOk = false := by
            cases hf : env.fallbackOk
            · rfl
            · exact absurd hf hfb
          simp [finishRun, hfast2, hfb2]

/-- Witness for C5: fast concat fails, fallback succeeds, job succeeds. -/
theorem C5_concat_fallback_witness :
    ((process_and_create_output envC5 pdC1).fallbackAttempted = true ↔
      envC5.fastOk = false) ∧
    ((process_and_create_output envC5 pdC1).ret = some true ↔
      (envC5.fastOk = true ∨ envC5.fallbackOk = true)) ∧
    ((process_and_create_output envC5 pdC1).diagPrinted =
      if envC5.fastOk = false ∧ envC5.fallbackOk = false then some envC5.fallbackStderr
      else none) :=
  C5_concat_fallback envC5 pdC1 (by decide)

theorem mem_fsRemove {x p : String} {fs : List String} :
    x ∈ fsRemove p fs ↔ x ∈ fs ∧ x ≠ p := by
  simp [fsRemove, List.mem_filter]

theorem not_mem_foldl_remove_of_not_mem :
    ∀ (L : List String) (fs : List String) (p : String), p ∉ fs →
      p ∉ L.foldl (fun acc q => fsRemove q acc) fs := by
  intro L
  induction L with
  | nil => intro fs p hp; exact hp
  | cons a L ih =>
    intro fs p hp
    simp only [List.foldl_cons]
    exact ih _ p (fun hmem => hp (mem_fsRemove.mp hmem).1)

theorem not_mem_foldl_remove_of_mem :
    ∀ (L : List String) (fs : List String) (p : String), p ∈ L →
      p ∉ L.foldl (fun acc q => fsRemove q acc) fs := by
  intro L
  induction L with
  | nil => intro fs p hp; exact absurd hp (by simp)
  | cons a L ih =>
    intro fs p hp
    simp only [List.foldl_cons]
    rcases List.mem_cons.mp hp with h | h
    · subst h
      exact not_mem_foldl_remove_of_not_mem L _ p (by simp [mem_fsRemove])
    · exact ih _ p h

theorem finishRun_clean (env : PipelineEnv) (ret : Option Bool) (st : RenderState)
    (manifest : Option (List String)) (fastA fbA : Bool) (diag : Option String)
    (fsX : List String) :
    (∀ p ∈ st.tempFiles,
      p ∉ (finishRun env ret st manifest fastA fbA diag fsX).fs) ∧
    (manifest.isSome →
      manifestPath env.outputFolder ∉
        (finishRun env ret st manifest fastA fbA diag fsX).fs) ∧
    ((finishRun env ret st manifest fastA fbA diag fsX).tempDirRemoved =
      ((finishRun env ret st manifest fastA fbA diag fsX).fs.filter
        fun p => underDir (tempDirOf env.outputFolder) p).isEmpty) := by
  refine ⟨?_, ?_, rfl⟩
  · intro p hp
    simp only [finishRun]
    have h1 := not_mem_foldl_remove_of_mem st.tempFiles fsX p hp
    cases manifest with
    | none => exact h1
    | some lines =>
      simp only [Option.isSome_some, if_pos]
      intro hmem
      exact h1 (mem_fsRemove.mp hmem).1
  · intro hman
    simp only [finishRun]
    cases manifest with
    | none => exact absurd hman (by simp)
    | some lines =>
      simp only [Option.isSome_some, if_pos]
      intro hmem
      exact absurd (mem_fsRemove.mp hmem).2 (by simp)

/-- C6: cleanup is unconditional — on every exit path every temp segment
file registered during the run and the concat manifest (when it was
written) are deleted, and the temp segment directory is removed exactly
when its listing is empty after the removals. -/
theorem C6_cleanup_unconditional (env : PipelineEnv) (pd : ProcessingData) :
    (∀ p ∈ (process_and_create_output env pd).st.tempFiles,
      p ∉ (process_and_create_output env pd).fs) ∧
    ((process_and_create_output env pd).manifestLines.isSome →
      manifestPath env.outputFolder ∉ (process_and_create_output env pd).fs) ∧
    ((process_and_create_output env pd).tempDirRemoved =
      ((process_and_create_output env pd).fs.filter
        fun p => underDir (tempDirOf env.outputFolder) p).isEmpty) := by
  cases h : renderLoop env pd.durations pd.inputs 0 ⟨none, none, [], [], env.initFs⟩ with
  | error st =>
    rw [process_of_loop_error env pd st h]
    exact finishRun_clean _ _ _ _ _ _ _ _
  | ok st =>
    by_cases hemp : st.tempFiles.isEmpty
    · rw [process_of_loop_ok_empty env pd st h hemp]
      exact finishRun_clean _ _ _ _ _ _ _ _
    · rw [process_of_loop_ok_concat env pd st h (by simpa using hemp)]
      split
      · exact finishRun_clean _ _ _ _ _ _ _ _
      · split
        · exact finishRun_clean _ _ _ _ _ _ _ _
        · exact finishRun_clean _ _ _ _ _ _ _ _

/-- Witness for C6: after a successful run the written manifest is gone. -/
theorem C6_cleanup_unconditional_witness :
    manifestPath envAllOk.outputFolder ∉ (process_and_create_output envAllOk pdC1).fs :=
  (C6_cleanup_unconditional envAllOk pdC1).2.1 (by decide)

/-! ### Worker model: `process_video` (video_maker.py)

Mongo documents are modelled with `Option` fields (`part.get(field)` is
`none` when the key is absent); `db.videos.update_one($set: ...)` is a
function on the record state, and the applied updates are traced.
`modification_time` stamps and logging carry no modelled state.
-/

/-- One `video_parts` document, restricted to the fields the worker
reads. -/
structure PartDoc where
  file_location : Option String
  start_time : Option String
  end_time : Option String
  part_number : Option ℤ
  deriving DecidableEq

/-- The `videos` document, restricted to the fields the worker reads. -/
structure VideoDoc where
  video_title : Option String
  deriving DecidableEq

/-- The record fields the worker writes. -/
structure RecordState where
  status : String
  output_file_location : Option String
  error_reason : Option String
  video_size : Option String
  deriving DecidableEq

/-- One `db.videos.update_one({"$set": ...})` performed by the worker. -/
inductive DbUpdate where
  | markFailed (reason : String)
  | markProcessing (outputPath : String)
  | markCompleted (outputPath : String) (size : String)
  deriving DecidableEq

/-- The `$set` semantics of each update: only the listed fields change. -/
def applyUpdate (rec : RecordState) : DbUpdate → RecordState
  | .markFailed reason =>
    { rec with
      status := "failed"
      error_reason := some reason }
  | .markProcessing p =>
    { rec with
      status := "processing"
      output_file_location := some p
      error_reason := none }
  | .markCompleted p size =>
    { rec with
      status := "completed"
      output_file_location := some p
      video_size := some size
      error_reason := none }

/-- Python falsy test for an optional string field (`not part.get(f)`). -/
def pyFalsyStr : Option String → Bool
  | none => true
  | some s => s.isEmpty

/-- Python falsy test for an optional integer field: absent or zero. -/
def pyFalsyInt : Option ℤ → Bool
  | none => true
  | some i => i = 0

/-- The falsy required fields of one part, in the order of
`required_fields = ["file_location", "start_time", "end_time",
"part_number"]`. -/
def missingOf (p : PartDoc) : List String :=
  (if pyFalsyStr p.file_location then ["file_location"] else []) ++
  (if pyFalsyStr p.start_time then ["start_time"] else []) ++
  (if pyFalsyStr p.end_time then ["end_time"] else []) ++
  (if pyFalsyInt p.part_number then ["part_number"] else [])

/-- The `missing_fields` accumulation over `enumerate(parts)`. -/
def collectMissingAux : List PartDoc → ℕ → List String
  | [], _ => []
  | p :: rest, index =>
    (if (missingOf p).isEmpty then []
     else ["part_index=" ++ keyStr index ++ " missing " ++
       String.intercalate ", " (missingOf p)]) ++
    collectMissingAux rest (index + 1)

/-- The Mongo sort key.  `.sort("part_number", 1)` sorts ascending;
documents lacking the key sort first in Mongo, modelled here by the
default key 0 — every claim proved below either has all part numbers
present or does not depend on the resulting order.  A stable structural
sort models the cursor order. -/
def sortKey (p : PartDoc) : ℤ := p.part_number.getD 0

/-- `list(db.video_parts.find(...).sort("part_number", 1))`. -/
def sortParts (parts : List PartDoc) : List PartDoc :=
  List.insertionSort (fun a b => sortKey a ≤ sortKey b) parts

/-- ASCII letters and digits (the `[^A-Za-z0-9]` regex class
complement). -/
def isAlnumAscii (c : Char) : Bool :=
  ('A' ≤ c && c ≤ 'Z') || ('a' ≤ c && c ≤ 'z') || ('0' ≤ c && c ≤ '9')

/-- `re.sub(r"[^A-Za-z0-9]+", "_", title)`: each maximal run of
non-alphanumeric characters becomes one underscore; the flag records
whether the previous character was inside such a run. -/
def squashNonAlnum : List Char → Bool → List Char
  | [], _ => []
  | c :: rest, inRun =>
    if isAlnumAscii c then c :: squashNonAlnum rest false
    else if inRun then squashNonAlnum rest true
    else '_' :: squashNonAlnum rest true

/-- `.strip("_")`. -/
def stripUnderscores (cs : List Char) : List Char :=
  ((cs.dropWhile fun c => c = '_').reverse.dropWhile fun c => c = '_').reverse

/-- `_safe_filename` from video_maker.py. -/
def safe_filename (title : String) : String :=
  let s := stripUnderscores (squashNonAlnum title.data false)
  if s.isEmpty then "video" else String.mk s

/-- `f"{safe_title}.mp4"` for the job's video document
(`video.get("video_title", "video")`). -/
def outputNameOf (video : VideoDoc) : String :=
  safe_filename (video.video_title.getD "video") ++ ".mp4"

/-- `_build_processing_payload` body: `inputs` gets each part's
`file_location` in order, `durations[str(index)]` its parsed start/end
times.  A missing key raises `KeyError` and an invalid time string raises
`ValueError` from `_parse_hms`; both are modelled as `none` (this call
sits outside the worker's `try`). -/
def buildPayloadAux : List PartDoc → ℕ → Option (List String × List (String × TimeRange))
  | [], _ => some ([], [])
  | p :: rest, index =>
    match p.file_location, p.start_time, p.end_time with
    | some loc, some st1, some en1 =>
      match parse_hms st1, parse_hms en1 with
      | some s, some e =>
        (buildPayloadAux rest (index + 1)).map fun r2 =>
          (loc :: r2.1, (keyStr index, ⟨s, e⟩) :: r2.2)
      | _, _ => none
    | _, _, _ => none

/-- `_build_processing_payload` from video_maker.py. -/
def build_processing_payload (parts : List PartDoc) (output_name : String) :
    Option ProcessingData :=
  (buildPayloadAux parts 0).map fun r => ⟨r.1, r.2, output_name⟩

/-- External world for one `process_video` call: the looked-up documents,
the configured output location, the pipeline's environment, the ffprobe
result for the output (`none` = non-zero exit or empty stdout), and the
record's state when the job starts. -/
structure WorkerEnv where
  video : Option VideoDoc
  parts : List PartDoc
  outputFilesLocation : String
  pipeline : PipelineEnv
  probe : Option ℚ
  rec0 : RecordState

/-- Everything observable about one `process_video` call.  `ret = none`
models an exception escaping the coroutine (no handler). -/
structure WorkerResult where
  ret : Option Bool
  record : RecordState
  updates : List DbUpdate
  automationInvoked : Bool
  run : Option RunResult

/-- `process_video` from video_maker.py.  In order: missing video record
returns `False` with no update; empty part list marks the record failed;
structurally invalid parts (any falsy required field) mark it failed with
the collected reason; otherwise the record transitions to `processing`
with the derived output path, the payload is built (outside the `try`, so
a `_parse_hms` failure escapes, leaving the record in `processing`), the
automation runs (`read_video_config` reads back the JSON the worker just
wrote, modelled as succeeding), and the `try` body raises — caught by the
broad handler which marks the record failed with the exception text — when
the automation result is falsy, when the output path does not exist, or
when probing fails; otherwise the record transitions to `completed` with
the formatted duration. -/
def process_video (env : WorkerEnv) : WorkerResult :=
  match env.video with
  | none => ⟨some false, env.rec0, [], false, none⟩
  | some video =>
    let parts := sortParts env.parts
    if parts.isEmpty then
      let u : DbUpdate := .markFailed "No video parts found for video"
      ⟨some false, applyUpdate env.rec0 u, [u], false, none⟩
    else if (collectMissingAux parts 0).isEmpty then
      let output_file_name := outputNameOf video
      let output_path := joinPath env.outputFilesLocation output_file_name
      let u1 : DbUpdate := .markProcessing output_path
      let rec1 := applyUpdate env.rec0 u1
      match build_processing_payload parts output_file_name with
      | none => ⟨none, rec1, [u1], false, none⟩
      | some payload =>
        let run := process_and_create_output env.pipeline payload
        if run.ret = some true then
          if output_path ∈ run.fs then
            match env.probe with
            | none =>
              let u2 : DbUpdate := .markFailed "Unable to read output duration"
              ⟨some false, applyUpdate rec1 u2, [u1, u2], true, some run⟩
            | some d =>
              let u2 : DbUpdate := .markCompleted output_path (format_hms d)
              ⟨some true, applyUpdate rec1 u2, [u1, u2], true, some run⟩
          else
            let u2 : DbUpdate := .markFailed "Output file was not created"
            ⟨some false, applyUpdate rec1 u2, [u1, u2], true, some run⟩
        else
          let u2 : DbUpdate := .markFailed "Video creation failed"
          ⟨some false, applyUpdate rec1 u2, [u1, u2], true, some run⟩
    else
      let u : DbUpdate := .markFailed
        ("Invalid video parts: " ++ String.intercalate "; " (collectMissingAux parts 0))
      ⟨some false, applyUpdate env.rec0 u, [u], false, none⟩

theorem process_video_no_video (env : WorkerEnv) (h : env.video = none) :
    process_video env = ⟨some false, env.rec0, [], false, none⟩ := by
  simp only [process_video, h]

theorem process_video_no_parts (env : WorkerEnv) (video : VideoDoc)
    (hv : env.video = some video) (hemp : (sortParts env.parts).isEmpty = true) :
    process_video env =
      ⟨some false, applyUpdate env.rec0 (.markFailed "No video parts found for video"),
        [.markFailed "No video parts found for video"], false, none⟩ := by
  simp [process_video, hv, hemp]

theorem process_video_invalid_parts (env : WorkerEnv) (video : VideoDoc)
    (hv : env.video = some video) (hemp : (sortParts env.parts).isEmpty = false)
    (hmiss : (collectMissingAux (sortParts env.parts) 0).isEmpty = false) :
    process_video env =
      ⟨some false,
        applyUpdate env.rec0 (.markFailed ("Invalid video parts: " ++
          String.intercalate "; " (collectMissingAux (sortParts env.parts) 0))),
        [.markFailed ("Invalid video parts: " ++
          String.intercalate "; " (collectMissingAux (sortParts env.parts) 0))],
        false, none⟩ := by
  simp [process_video, hv, hemp, hmiss]

theorem process_video_build_none (env : WorkerEnv) (video : VideoDoc)
    (hv : env.video = some video) (hemp : (sortParts env.parts).isEmpty = false)
    (hmiss : (collectMissingAux (sortParts env.parts) 0).isEmpty = true)
    (hb : build_processing_payload (sortParts env.parts) (outputNameOf video) = none) :
    process_video env =
      ⟨none,
        applyUpdate env.rec0 (.markProcessing
          (joinPath env.outputFilesLocation (outputNameOf video))),
        [.markProcessing (joinPath env.outputFilesLocation (outputNameOf video))],
        false, none⟩ := by
  simp [process_video, hv, hemp, hmiss, hb]

theorem process_video_create_failed (env : WorkerEnv) (video : VideoDoc)
    (payload : ProcessingData)
    (hv : env.video = some video) (hemp : (sortParts env.parts).isEmpty = false)
    (hmiss : (collectMissingAux (sortParts env.parts) 0).isEmpty = true)
    (hb : build_processing_payload (sortParts env.parts) (outputNameOf video) = some payload)
    (hr : ¬(process_and_create_output env.pipeline payload).ret = some true) :
    process_video env =
      ⟨some false,
        applyUpdate
          (applyUpdate env.rec0 (.markProcessing
            (joinPath env.outputFilesLocation (outputNameOf video))))
          (.markFailed "Video creation failed"),
        [.markProcessing (joinPath env.outputFilesLocation (outputNameOf video)),
          .markFailed "Video creation failed"],
        true, some (process_and_create_output env.pipeline payload)⟩ := by
  simp [process_video, hv, hemp, hmiss, hb, hr]

theorem process_video_output_missing (env : WorkerEnv) (video : VideoDoc)
    (payload : ProcessingData)
    (hv : env.video = some video) (hemp : (sortParts env.parts).isEmpty = false)
    (hmiss : (collectMissingAux (sortParts env.parts) 0).isEmpty = true)
    (hb : build_processing_payload (sortParts env.parts) (outputNameOf video) = some payload)
    (hr : (process_and_create_output env.pipeline payload).ret = some true)
    (hm : joinPath env.outputFilesLocation (outputNameOf video) ∉
      (process_and_create_output env.pipeline payload).fs) :
    process_video env =
      ⟨some false,
        applyUpdate
          (applyUpdate env.rec0 (.markProcessing
            (joinPath env.outputFilesLocation (outputNameOf video))))
          (.markFailed "Output file was not created"),
        [.markProcessing (joinPath env.outputFilesLocation (outputNameOf video)),
          .markFailed "Output file was not created"],
        true, some (process_and_create_output env.pipeline payload)⟩ := by
  simp [process_video, hv, hemp, hmiss, hb, hr, hm]

theorem process_video_probe_failed (env : WorkerEnv) (video : VideoDoc)
    (payload : ProcessingData)
    (hv : env.video = some video) (hemp : (sortParts env.parts).isEmpty = false)
    (hmiss : (collectMissingAux (sortParts env.parts) 0).isEmpty = true)
    (hb : build_processing_payload (sortParts env.parts) (outputNameOf video) = some payload)
    (hr : (process_and_create_output env.pipeline payload).ret = some true)
    (hm : joinPath env.outputFilesLocation (outputNameOf video) ∈
      (process_and_create_output env.pipeline payload).fs)
    (hp : env.probe = none) :
    process_video env =
      ⟨some false,
        applyUpdate
          (applyUpdate env.rec0 (.markProcessing
            (joinPath env.outputFilesLocation (outputNameOf video))))
          (.markFailed "Unable to read output duration"),
        [.markProcessing (joinPath env.outputFilesLocation (outputNameOf video)),
          .markFailed "Unable to read output duration"],
        true, some (process_and_create_output env.pipeline payload)⟩ := by
  simp [process_video, hv, hemp, hmiss, hb, hr, hm, hp]

theorem process_video_completed (env : WorkerEnv) (video : VideoDoc)
    (payload : ProcessingData) (d : ℚ)
    (hv : env.video = some video) (hemp : (sortParts env.parts).isEmpty = false)
    (hmiss : (collectMissingAux (sortParts env.parts) 0).isEmpty = true)
    (hb : build_processing_payload (sortParts env.parts) (outputNameOf video) = some payload)
    (hr : (process_and_create_output env.pipeline payload).ret = some true)
    (hm : joinPath env.outputFilesLocation (outputNameOf video) ∈
      (process_and_create_output env.pipeline payload).fs)
    (hp : env.probe = some d) :
    process_video env =
      ⟨some true,
        applyUpdate
          (applyUpdate env.rec0 (.markProcessing
            (joinPath env.outputFilesLocation (outputNameOf video))))
          (.markCompleted (joinPath env.outputFilesLocation (outputNameOf video))
            (format_hms d)),
        [.markProcessing (joinPath env.outputFilesLocation (outputNameOf video)),
          .markCompleted (joinPath env.outputFilesLocation (outputNameOf video))
            (format_hms d)],
        true, some (process_and_create_output env.pipeline payload)⟩ := by
  simp [process_video, hv, hemp, hmiss, hb, hr, hm, hp]

theorem bool_not_true {b : Bool} (h : ¬b = true) : b = false := by
  cases hb : b
  · rfl
  · exact absurd hb h

/-- C8: the record transitions to completed only after the output file is
confirmed on disk and its duration probed, and then its duration field
holds the formatted probed duration; when the automation succeeded but the
existence check or the probe fails, the record transitions to failed.  The
hypothesis pins the record to a not-yet-completed state at job start (the
worker is invoked on queued records). -/
theorem C8_completed_requires_output_and_probe (env : WorkerEnv)
    (h0 : env.rec0.status ≠ "completed") :
    ((process_video env).record.status = "completed" →
      ∃ run d p, (process_video env).run = some run ∧ run.ret = some true ∧
        (process_video env).record.output_file_location = some p ∧ p ∈ run.fs ∧
        env.probe = some d ∧
        (process_video env).record.video_size = some (format_hms d)) ∧
    (∀ run p, (process_video env).run = some run → run.ret = some true →
      (process_video env).record.output_file_location = some p →
      (p ∉ run.fs ∨ env.probe = none) →
      (process_video env).record.status = "failed") := by
  cases hv : env.video with
  | none =>
    rw [process_video_no_video env hv]
    constructor
    · intro hc; exact absurd hc h0
    · intro run p hrun; exact absurd hrun (by simp)
  | some video =>
    by_cases hemp : (sortParts env.parts).isEmpty = true
    · rw [process_video_no_parts env video hv hemp]
      constructor
      · intro hc; exact absurd hc (by simp [applyUpdate])
      · intro run p hrun; exact absurd hrun (by simp)
    · have hemp2 := bool_not_true hemp
      by_cases hmiss : (collectMissingAux (sortParts env.parts) 0).isEmpty = true
      · cases hb : build_processing_payload (sortParts env.parts) (outputNameOf video) with
        | none =>
          rw [process_video_build_none env video hv hemp2 hmiss hb]
          constructor
          · intro hc; exact absurd hc (by simp [applyUpdate])
          · intro run p hrun; exact absurd hrun (by simp)
        | some payload =>
          by_cases hr : (process_and_create_output env.pipeline payload).ret = some true
          · by_cases hm : joinPath env.outputFilesLocation (outputNameOf video) ∈
                (process_and_create_output env.pipeline payload).fs
            · cases hp : env.probe with
              | none =>
                rw [process_video_probe_failed env video payload hv hemp2 hmiss hb hr hm hp]
                constructor
                · intro hc; exact absurd hc (by simp [applyUpdate])
                · intro run p _ _ _ _; rfl
              | some d =>
                rw [process_video_completed env video payload d hv hemp2 hmiss hb hr hm hp]
                constructor
                · intro _
                  exact ⟨process_and_create_output env.pipeline payload, d,
                    joinPath env.outputFilesLocation (outputNameOf video), rfl, hr, rfl,
                    hm, rfl, rfl⟩
                · intro run p hrun hret hloc hdisj
                  obtain rfl := Option.some.inj hrun
                  obtain rfl := Option.some.inj hloc
                  rcases hdisj with hnm | hpe
                  · exact absurd hm hnm
                  · exact absurd hpe (by simp)
            · rw [process_video_output_missing env video payload hv hemp2 hmiss hb hr hm]
              constructor
              · intro hc; exact absurd hc (by simp [applyUpdate])
              · intro run p _ _ _ _; rfl
          · rw [process_video_create_failed env video payload hv hemp2 hmiss hb hr]
            constructor
            · intro hc; exact absurd hc (by simp [applyUpdate])
            · intro run p _ _ _ _; rfl
      · have hmiss2 := bool_not_true hmiss
        rw [process_video_invalid_parts env video hv hemp2 hmiss2]
        constructor
        · intro hc; exact absurd hc (by simp [applyUpdate])
        · intro run p hrun; exact absurd hrun (by simp)

/-- A queued record, as the worker receives it. -/
def recQ : RecordState := ⟨"queued", none, none, none⟩

/-- Two structurally valid parts, listed out of order (part 2 first). -/
def partsOK : List PartDoc :=
  [⟨some "b.mp4", some "00:00:05", some "00:00:10", some 2⟩,
   ⟨some "a.mp4", some "00:00:00", some "00:00:05", some 1⟩]

/-- A worker environment in which everything succeeds. -/
def wenvOK : WorkerEnv :=
  { video := some ⟨some "My Video!"⟩
    parts := partsOK
    outputFilesLocation := "out"
    pipeline := envAllOk
    probe := some 61
    rec0 := recQ }

/-- A worker environment in which both concat invocations fail, so the
automation returns a falsy result and no output file is ever created. -/
def wenvFail : WorkerEnv := { wenvOK with pipeline := envBothFail }

/-- A worker environment whose single part has `part_number = 0`. -/
def wenvZero : WorkerEnv :=
  { wenvOK with parts := [⟨some "a.mp4", some "00:00:00", some "00:00:05", some 0⟩] }

/-- Witness for C8 at a fully successful concrete run (probe 61 seconds,
formatted as 00:01:01). -/
theorem C8_completed_requires_output_and_probe_witness :
    ∃ run d p, (process_video wenvOK).run = some run ∧ run.ret = some true ∧
      (process_video wenvOK).record.output_file_location = some p ∧ p ∈ run.fs ∧
      wenvOK.probe = some d ∧
      (process_video wenvOK).record.video_size = some (format_hms d) :=
  (C8_completed_requires_output_and_probe wenvOK (by decide)).1 (by decide)

/-- C9 counterexample: after a failed run the record keeps status failed
with a reason, but `output_file_location` still references the output path
assigned at the processing transition even though no file exists there —
contradicting the claim that `output_location` never references a file not
confirmed to exist. -/
theorem C9_output_location_counterexample :
    (process_video wenvFail).record.status = "failed" ∧
    (process_video wenvFail).record.output_file_location = some "out/My_Video.mp4" ∧
    ((process_video wenvFail).run.map fun r =>
      decide (("out/My_Video.mp4" : String) ∈ r.fs)) = some false := by
  decide

/-- C9 (amended): on failure the record holds a failed status with exactly
one human-readable reason, but `output_file_location` is not cleared — it
retains the path assigned at the transition to processing whether or not a
file exists there; only in the completed state is the referenced file
confirmed to exist on disk. -/
theorem C9_output_location_amended (env : WorkerEnv)
    (h0c : env.rec0.status ≠ "completed") (h0f : env.rec0.status ≠ "failed") :
    ((process_video env).record.status = "completed" →
      ∃ p run, (process_video env).record.output_file_location = some p ∧
        (process_video env).run = some run ∧ p ∈ run.fs) ∧
    ((process_video env).record.status = "failed" →
      ∃ reason, (process_video env).record.error_reason = some reason) ∧
    (∀ run, (process_video env).run = some run →
      ∃ p, (process_video env).record.output_file_location = some p) := by
  cases hv : env.video with
  | none =>
    rw [process_video_no_video env hv]
    exact ⟨fun hc => absurd hc h0c, fun hf => absurd hf h0f,
      fun run hrun => absurd hrun (by simp)⟩
  | some video =>
    by_cases hemp : (sortParts env.parts).isEmpty = true
    · rw [process_video_no_parts env video hv hemp]
      exact ⟨fun hc => absurd hc (by simp [applyUpdate]), fun _ => ⟨_, rfl⟩,
        fun run hrun => absurd hrun (by simp)⟩
    · have hemp2 := bool_not_true hemp
      by_cases hmiss : (collectMissingAux (sortParts env.parts) 0).isEmpty = true
      · cases hb : build_processing_payload (sortParts env.parts) (outputNameOf video) with
        | none =>
          rw [process_video_build_none env video hv hemp2 hmiss hb]
          exact ⟨fun hc => absurd hc (by simp [applyUpdate]),
            fun hf => absurd hf (by simp [applyUpdate]),
            fun run hrun => absurd hrun (by simp)⟩
        | some payload =>
          by_cases hr : (process_and_create_output env.pipeline payload).ret = some true
          · by_cases hm : joinPath env.outputFilesLocation (outputNameOf video) ∈
                (process_and_create_output env.pipeline payload).fs
            · cases hp : env.probe with
              | none =>
                rw [process_video_probe_failed env video payload hv hemp2 hmiss hb hr hm hp]
                exact ⟨fun hc => absurd hc (by simp [applyUpdate]),
                  fun _ => ⟨_, rfl⟩, fun run _ => ⟨_, rfl⟩⟩
              | some d =>
                rw [process_video_completed env video payload d hv hemp2 hmiss hb hr hm hp]
                exact ⟨fun _ => ⟨_, process_and_create_output env.pipeline payload,
                    rfl, rfl, hm⟩,
                  fun hf => absurd hf (by simp [applyUpdate]),
                  fun run _ => ⟨_, rfl⟩⟩
            · rw [process_video_output_missing env video payload hv hemp2 hmiss hb hr hm]
              exact ⟨fun hc => absurd hc (by simp [applyUpdate]),
                fun _ => ⟨_, rfl⟩, fun run _ => ⟨_, rfl⟩⟩
          · rw [process_video_create_failed env video payload hv hemp2 hmiss hb hr]
            exact ⟨fun hc => absurd hc (by simp [applyUpdate]),
              fun _ => ⟨_, rfl⟩, fun run _ => ⟨_, rfl⟩⟩
      · have hmiss2 := bool_not_true hmiss
        rw [process_video_invalid_parts env video hv hemp2 hmiss2]
        exact ⟨fun hc => absurd hc (by simp [applyUpdate]), fun _ => ⟨_, rfl⟩,
          fun run hrun => absurd hrun (by simp)⟩

/-- Witness for C9 (amended): the failed run carries exactly one reason. -/
theorem C9_output_location_amended_witness :
    ∃ reason, (process_video wenvFail).record.error_reason = some reason :=
  (C9_output_location_amended wenvFail (by decide) (by decide)).2.1 (by decide)

theorem collectMissingAux_ne_empty :
    ∀ (L : List PartDoc) (i : ℕ) (p : PartDoc), p ∈ L →
      (missingOf p).isEmpty = false → (collectMissingAux L i).isEmpty = false := by
  intro L
  induction L with
  | nil => intro i p hp; exact absurd hp (by simp)
  | cons a L ih =>
    intro i p hp hm
    simp only [collectMissingAux]
    rcases List.mem_cons.mp hp with h | h
    · subst h
      rw [hm]
      simp
    · by_cases ha : (missingOf a).isEmpty = true
      · rw [ha]
        simpa using ih (i + 1) p h hm
      · rw [bool_not_true ha]
        simp

/-- C10 (implicit): the structural validation tests each required field
with `not part.get(field)`, so the integer 0 in `part_number` counts as
missing; any job containing such a part is marked failed with a reason
starting `Invalid video parts:` and returns `False` without invoking the
rendering pipeline. -/
theorem C10_part_number_zero_invalid (env : WorkerEnv) (video : VideoDoc) (p : PartDoc)
    (hv : env.video = some video) (hp : p ∈ env.parts) (hpn : p.part_number = some 0) :
    (process_video env).ret = some false ∧
    (process_video env).record.status = "failed" ∧
    (∃ t, (process_video env).record.error_reason = some ("Invalid video parts: " ++ t)) ∧
    (process_video env).automationInvoked = false := by
  have hmem : p ∈ sortParts env.parts :=
    (List.perm_insertionSort _ env.parts).mem_iff.mpr hp
  have hemp2 : (sortParts env.parts).isEmpty = false := by
    cases h : sortParts env.parts with
    | nil => rw [h] at hmem; exact absurd hmem (by simp)
    | cons a l => rfl
  have hmp : (missingOf p).isEmpty = false := by
    simp [missingOf, pyFalsyInt, hpn]
  have hmiss2 := collectMissingAux_ne_empty (sortParts env.parts) 0 p hmem hmp
  rw [process_video_invalid_parts env video hv hemp2 hmiss2]
  exact ⟨rfl, rfl, ⟨_, rfl⟩, rfl⟩

/-- Witness for C10 at a concrete job whose only part has part number 0. -/
theorem C10_part_number_zero_invalid_witness :
    (process_video wenvZero).ret = some false ∧
    (process_video wenvZero).record.status = "failed" ∧
    (∃ t, (process_video wenvZero).record.error_reason =
      some ("Invalid video parts: " ++ t)) ∧
    (process_video wenvZero).automationInvoked = false :=
  C10_part_number_zero_invalid wenvZero ⟨some "My Video!"⟩
    ⟨some "a.mp4", some "00:00:00", some "00:00:05", some 0⟩ (by decide)
    (by decide) (by decide)

theorem lookupDur_cons_isSome {k0 : String} {r0 : TimeRange}
    {rest : List (String × TimeRange)} {k : String}
    (h : (lookupDur rest k).isSome) : (lookupDur ((k0, r0) :: rest) k).isSome := by
  simp only [lookupDur, List.find?]
  cases hbe : (k0 == k)
  · simpa [lookupDur] using h
  · simp

theorem buildPayloadAux_spec :
    ∀ (parts : List PartDoc) (i : ℕ) (res : List String × List (String × TimeRange)),
      buildPayloadAux parts i = some res →
      res.1 = parts.map (fun q => q.file_location.getD "") ∧
      ∀ j, j < parts.length → (lookupDur res.2 (keyStr (i + j))).isSome := by
  intro parts
  induction parts with
  | nil =>
    intro i res h
    obtain rfl := Option.some.inj h
    exact ⟨rfl, fun j hj => absurd hj (by simp)⟩
  | cons a parts ih =>
    intro i res h
    simp only [buildPayloadAux] at h
    cases hl : a.file_location with
    | none => rw [hl] at h; exact absurd h (by simp)
    | some loc =>
      cases hs : a.start_time with
      | none => rw [hl, hs] at h; exact absurd h (by simp)
      | some st1 =>
        cases he : a.end_time with
        | none => rw [hl, hs, he] at h; exact absurd h (by simp)
        | some en1 =>
          rw [hl, hs, he] at h
          simp only at h
          cases hps : parse_hms st1 with
          | none => rw [hps] at h; exact absurd h (by simp)
          | some sv =>
            cases hpe : parse_hms en1 with
            | none => rw [hps, hpe] at h; exact absurd h (by simp)
            | some ev =>
              rw [hps, hpe] at h
              simp only at h
              cases hrec : buildPayloadAux parts (i + 1) with
              | none => rw [hrec] at h; exact absurd h (by simp)
              | some res2 =>
                rw [hrec] at h
                simp only [Option.map_some'] at h
                obtain rfl := Option.some.inj h
                obtain ⟨ih1, ih2⟩ := ih (i + 1) res2 hrec
                constructor
                · simp [ih1, hl]
                · intro j hj
                  cases j with
                  | zero =>
                    simp only [Nat.add_zero, lookupDur, List.find?, beq_self_eq_true]
                    simp
                  | succ j =>
                    have hj2 : j < parts.length := by
                      simpa using Nat.lt_of_succ_lt_succ hj
                    have := ih2 j hj2
                    rw [show i + (j + 1) = i + 1 + j by omega]
                    exact lookupDur_cons_isSome this

theorem renderLoop_total (env : PipelineEnv) (durs : List (String × TimeRange)) :
    ∀ (inputs : List String) (index : ℕ) (st : RenderState),
      (∀ j, j < inputs.length → (lookupDur durs (keyStr (index + j))).isSome) →
      (∀ f ∈ inputs, (env.clips (joinPath env.inputFolder f)).isSome) →
      ∃ st', renderLoop env durs inputs index st = .ok st' ∧
        st'.segs.map Seg.source =
          st.segs.map Seg.source ++ inputs.map (joinPath env.inputFolder) ∧
        st'.tempFiles = st.tempFiles ++
          (List.range inputs.length).map (fun j => segPath env.outputFolder (index + j)) := by
  intro inputs
  induction inputs with
  | nil =>
    intro index st _ _
    exact ⟨st, rfl, by simp, by simp⟩
  | cons f rest ih =>
    intro index st hdur hclips
    have hd0 : (lookupDur durs (keyStr index)).isSome := by
      have := hdur 0 (by simp)
      simpa using this
    obtain ⟨r, hr⟩ := Option.isSome_iff_exists.mp hd0
    have hc0 : (env.clips (joinPath env.inputFolder f)).isSome :=
      hclips f (List.mem_cons_self f rest)
    obtain ⟨info, hinfo⟩ := Option.isSome_iff_exists.mp hc0
    obtain ⟨st', hok, hsegs, htemp⟩ := ih (index + 1) (stepState env st index f r info)
      (fun j hj => by
        have := hdur (j + 1) (by simpa using Nat.succ_lt_succ hj)
        rwa [show index + (j + 1) = index + 1 + j by omega] at this)
      (fun g hg => hclips g (List.mem_cons_of_mem f hg))
    refine ⟨st', ?_, ?_, ?_⟩
    · simp only [renderLoop, hr, hinfo]
      exact hok
    · rw [hsegs]
      simp only [stepState, List.map_append, stepSeg, List.map_cons, List.map_nil,
        List.append_assoc, List.cons_append, List.nil_append]
    · rw [htemp]
      simp only [stepState, List.length_cons, List.range_succ_eq_map, List.map_cons,
        List.map_map, List.append_assoc, List.cons_append, List.nil_append,
        Nat.add_zero]
      congr 1
      congr 1
      apply List.map_congr_left
      intro j _
      simp only [Function.comp_apply]
      congr 1
      omega

theorem process_manifest (env : PipelineEnv) (pd : ProcessingData) (st : RenderState)
    (h : renderLoop env pd.durations pd.inputs 0
      ⟨none, none, [], [], env.initFs⟩ = .ok st)
    (hne : st.tempFiles.isEmpty = false) :
    (process_and_create_output env pd).manifestLines =
      some (st.tempFiles.map (manifestLineFor env)) := by
  rw [process_of_loop_ok_concat env pd st h hne]
  split
  · rfl
  · split <;> rfl

/-- C7: the caller-determined part order is preserved end to end — the
parts are sorted ascending by part number (a permutation of the raw list),
the payload's inputs list them in that order with `durations[str(i)]`
present for every index, the renderer walks the inputs in index order
producing `segment_i.mp4` names, and the concat manifest lists the segment
files in exactly that order. -/
theorem C7_order_preserved (penv : PipelineEnv) (parts : List PartDoc)
    (output_name : String) (payload : ProcessingData)
    (hb : build_processing_payload (sortParts parts) output_name = some payload)
    (hclips : ∀ f ∈ payload.inputs, (penv.clips (joinPath penv.inputFolder f)).isSome)
    (hne : payload.inputs ≠ []) :
    List.Sorted (fun a b => sortKey a ≤ sortKey b) (sortParts parts) ∧
    (sortParts parts).Perm parts ∧
    payload.inputs = (sortParts parts).map (fun q => q.file_location.getD "") ∧
    (process_and_create_output penv payload).st.segs.map Seg.source =
      payload.inputs.map (joinPath penv.inputFolder) ∧
    (process_and_create_output penv payload).st.tempFiles =
      (List.range payload.inputs.length).map (segPath penv.outputFolder) ∧
    (process_and_create_output penv payload).manifestLines =
      some ((process_and_create_output penv payload).st.tempFiles.map
        (manifestLineFor penv)) := by
  obtain ⟨res, hres, hpayload⟩ :
      ∃ res, buildPayloadAux (sortParts parts) 0 = some res ∧
        payload = ⟨res.1, res.2, output_name⟩ := by
    unfold build_processing_payload at hb
    cases haux : buildPayloadAux (sortParts parts) 0 with
    | none => rw [haux] at hb; exact absurd hb (by simp)
    | some res =>
      rw [haux] at hb
      simp only [Option.map_some'] at hb
      exact ⟨res, rfl, (Option.some.inj hb).symm⟩
  obtain ⟨hinputs, hdurs⟩ := buildPayloadAux_spec (sortParts parts) 0 res hres
  have hlen : payload.inputs.length = (sortParts parts).length := by
    rw [hpayload]
    simpa using congrArg List.length hinputs
  obtain ⟨st', hok, hsegs, htemp⟩ :=
    renderLoop_total penv payload.durations payload.inputs 0
      ⟨none, none, [], [], penv.initFs⟩
      (fun j hj => by
        have hj2 : j < (sortParts parts).length := hlen ▸ hj
        have := hdurs j hj2
        rw [hpayload]
        simpa using this)
      hclips
  have hsegs2 : st'.segs.map Seg.source = payload.inputs.map (joinPath penv.inputFolder) := by
    rw [hsegs]; simp
  have htemp2 : st'.tempFiles =
      (List.range payload.inputs.length).map (segPath penv.outputFolder) := by
    rw [htemp]
    simp only [List.nil_append]
    apply List.map_congr_left
    intro j _
    simp
  have hstp : (process_and_create_output penv payload).st = st' := by
    rw [process_run_st, hok]
    rfl
  have hemptf : st'.tempFiles.isEmpty = false := by
    rw [htemp2]
    cases hin : payload.inputs with
    | nil => exact absurd hin hne
    | cons g gs => simp [List.range_succ_eq_map]
  refine ⟨?_, List.perm_insertionSort _ parts, ?_, ?_, ?_, ?_⟩
  · exact @List.sorted_insertionSort PartDoc (fun a b => sortKey a ≤ sortKey b) _
      ⟨fun a b => le_total (sortKey a) (sortKey b)⟩
      ⟨fun a b c hab hbc => le_trans hab hbc⟩ parts
  · rw [hpayload]
    exact hinputs
  · rw [hstp]
    exact hsegs2
  · rw [hstp]
    exact htemp2
  · rw [process_manifest penv payload st' hok hemptf, hstp]

/-- The payload `_build_processing_payload` produces for `partsOK` in
sorted order. -/
def payloadC7 : ProcessingData :=
  ⟨["a.mp4", "b.mp4"], [("0", ⟨0, 5⟩), ("1", ⟨5, 10⟩)], "My_Video.mp4"⟩

/-- Witness for C7 at the concrete two-part job. -/
theorem C7_order_preserved_witness :
    List.Sorted (fun a b => sortKey a ≤ sortKey b) (sortParts partsOK) ∧
    (sortParts partsOK).Perm partsOK ∧
    payloadC7.inputs = (sortParts partsOK).map (fun q => q.file_location.getD "") ∧
    (process_and_create_output envAllOk payloadC7).st.segs.map Seg.source =
      payloadC7.inputs.map (joinPath envAllOk.inputFolder) ∧
    (process_and_create_output envAllOk payloadC7).st.tempFiles =
      (List.range payloadC7.inputs.length).map (segPath envAllOk.outputFolder) ∧
    (process_and_create_output envAllOk payloadC7).manifestLines =
      some ((process_and_create_output envAllOk payloadC7).st.tempFiles.map
        (manifestLineFor envAllOk)) :=
  C7_order_preserved envAllOk partsOK "My_Video.mp4" payloadC7 (by decide)
    (by decide) (by decide)
